import Mathlib

/-!
Shallow embedding of the rpkimancer library (IP/AS resource encoding,
certificate issuance, manifest generation, TAL generation, ROA content
construction), together with theorems checking the natural-language
specification against the code.

Machine integers are modelled as Nat (addresses, serial numbers) or Int
(bit-string length counters, which the source decrements with python's
unbounded integers).  Byte strings are List Nat (one element per byte).
Hash digests computed by external crypto libraries are passed in as
explicit function arguments, since their implementation is not part of
this repository.
-/

namespace Rpkimancer

/-! ## resources.py -/

/-- Model of a python ipaddress.IPv4Network / IPv6Network value:
the IP version, the integer value of the network address and the
prefix length. -/
structure IPNet where
  version : Nat
  address : Nat
  prefixLen : Nat
deriving DecidableEq, Repr

/-- The max_prefixlen attribute of a python ipaddress object:
32 for IPv4, 128 for IPv6. -/
def max_prefixlen (version : Nat) : Nat :=
  if version = 4 then 32 else 128

/-- Invariants of a well-formed (strict) python IPNetwork object:
a known version, prefix length within range, address within the
address space, and all host bits zero. -/
def IPNet.valid (n : IPNet) : Prop :=
  (n.version = 4 ∨ n.version = 6) ∧
  n.prefixLen ≤ max_prefixlen n.version ∧
  n.address < 2 ^ max_prefixlen n.version ∧
  n.address % 2 ^ (max_prefixlen n.version - n.prefixLen) = 0

/-- resources.net_to_bitstring: value is the network address shifted
right by the number of host bits, length is the prefix length. -/
def net_to_bitstring (network : IPNet) : Nat × Nat :=
  let netbits := network.prefixLen
  let hostbits := max_prefixlen network.version - netbits
  (network.address / 2 ^ hostbits, netbits)

/-- resources.bitstring_to_net: shift the value left by the number of
host bits and construct a (strict) network object; the python
constructor raises on an unknown version, an out-of-range prefix
length, or an address outside the address space, which is modelled by
returning none. -/
def bitstring_to_net (bits : Nat × Nat) (version : Nat) : Option IPNet :=
  let value := bits.1
  let netbits := bits.2
  let w := max_prefixlen version
  let addr := value * 2 ^ (w - netbits)
  if (version = 4 ∨ version = 6) ∧ netbits ≤ w ∧ addr < 2 ^ w then
    some ⟨version, addr, netbits⟩
  else
    none

/-- The lower-bound loop of IPAddressRange.__init__: strip trailing
zero bits (while low_bits % 2 == 0: shift right, decrement length).
The python loop has no fuel; the fuel argument makes divergence
observable as none for every fuel value. -/
def trimLowLoop : Nat → Nat → Int → Option (Nat × Int)
  | 0, _, _ => none
  | fuel + 1, bits, len =>
    if bits % 2 = 0 then trimLowLoop fuel (bits / 2) (len - 1)
    else some (bits, len)

/-- The upper-bound loop of IPAddressRange.__init__: strip trailing
one bits (while high_bits % 2 == 1: shift right, decrement length). -/
def trimHighLoop : Nat → Nat → Int → Option (Nat × Int)
  | 0, _, _ => none
  | fuel + 1, bits, len =>
    if bits % 2 = 1 then trimHighLoop fuel (bits / 2) (len - 1)
    else some (bits, len)

/-- IPAddressRange.__init__ (resources.py): encode a range as the pair
of trimmed bit-strings (min from the lower bound, max from the upper
bound), starting each length counter at the address max_prefixlen. -/
def IPAddressRange_init (fuel : Nat) (low high : Nat) (lowLen highLen : Int) :
    Option ((Nat × Int) × (Nat × Int)) :=
  match trimLowLoop fuel low lowLen with
  | none => none
  | some lo =>
    match trimHighLoop fuel high highLen with
    | none => none
    | some hi => some (lo, hi)

/-- The python-level items accepted by IPAddrBlocks: a network, a pair
of addresses of one version, or an (afi, INHERIT) marker. -/
inductive IPAddressFamilyInfo where
  | net (n : IPNet)
  | range (version : Nat) (low high : Nat)
  | inherit (afi : Nat)
deriving DecidableEq, Repr

/-- The address family a python-level resource item belongs to. -/
def version_of : IPAddressFamilyInfo → Nat
  | .net n => n.version
  | .range v _ _ => v
  | .inherit afi => afi

/-- The per-entry data produced by _net_entry inside
IPAddrBlocks.__init__. -/
inductive NetData where
  | prefixEntry (bits : Nat × Nat)
  | rangeEntry (minBits maxBits : Nat × Int)
  | inheritMarker
deriving DecidableEq, Repr

/-- _net_entry (IPAddrBlocks.__init__): networks become addressPrefix
bit-strings, address pairs become addressRange encodings via
IPAddressRange, and inherit markers pass through.  none models a
diverging IPAddressRange construction. -/
def net_entry (fuel : Nat) : IPAddressFamilyInfo → Option (Nat × NetData)
  | .net n => some (n.version, .prefixEntry (net_to_bitstring n))
  | .range v low high =>
    match IPAddressRange_init fuel low high (max_prefixlen v) (max_prefixlen v) with
    | some (lo, hi) => some (v, .rangeEntry lo hi)
    | none => none
  | .inherit afi => some (afi, .inheritMarker)

/-- The ipAddressChoice alternatives emitted by IPAddrBlocks. -/
inductive IPAddressChoice where
  | inherit
  | addressesOrRanges (entries : List NetData)
deriving DecidableEq, Repr

/-- _combine (IPAddrBlocks.__init__): a family whose entry list holds
any inherit marker collapses to inherit, otherwise the entries are
emitted as addressesOrRanges. -/
def combine (entries : List NetData) : IPAddressChoice :=
  if entries.contains .inheritMarker then .inherit
  else .addressesOrRanges entries

/-- The AFI dict of resources.py: two-byte address family identifier,
0x0001 for IPv4 and 0x0002 for IPv6. -/
def afiBytes (version : Nat) : List Nat :=
  if version = 4 then [0, 1] else [0, 2]

/-- map(_net_entry, ip_resources): convert every caller-supplied item,
propagating divergence of any IPAddressRange construction. -/
def mapEntries (fuel : Nat) : List IPAddressFamilyInfo → Option (List (Nat × NetData))
  | [] => some []
  | x :: xs =>
    match net_entry fuel x with
    | none => none
    | some e =>
      match mapEntries fuel xs with
      | none => none
      | some es => some (e :: es)

/-- IPAddrBlocks.__init__: convert every entry with _net_entry, group
by address family in AFI iteration order (IPv4 then IPv6) keeping the
caller-supplied order inside each family, drop empty families, and
combine each family's entries. -/
def IPAddrBlocks_init (fuel : Nat) (ip_resources : List IPAddressFamilyInfo) :
    Option (List (List Nat × IPAddressChoice)) :=
  match mapEntries fuel ip_resources with
  | none => none
  | some entries =>
    let families := [4, 6].map fun v =>
      (afiBytes v, (entries.filter fun e => e.1 == v).map Prod.snd)
    some ((families.filter fun f => !f.2.isEmpty).map fun f => (f.1, combine f.2))

/-- The block a single address family would receive: the family's
caller-supplied items, in caller order, converted and combined; none
when the family has no items (or a conversion diverges). -/
def familyBlockSpec (fuel v : Nat) (xs : List IPAddressFamilyInfo) :
    Option (List Nat × IPAddressChoice) :=
  match mapEntries fuel (xs.filter fun x => version_of x == v) with
  | none => none
  | some [] => none
  | some l => some (afiBytes v, combine (l.map Prod.snd))

/-- Numeric key of an emitted entry inside a family of address width w:
the integer value of the entry's (lower-bound) bit-string padded back
to a full address.  Used to state the spec's ascending order claim. -/
def entryKey (w : Nat) : NetData → Int
  | .prefixEntry (value, len) => (value : Int) * 2 ^ (w - len)
  | .rangeEntry (minValue, minLen) _ => (minValue : Int) * 2 ^ (((w : Int) - minLen).toNat)
  | .inheritMarker => 0

/-- The address width of a family identified by its AFI bytes. -/
def famWidth (afi : List Nat) : Nat :=
  if afi = [0, 1] then 32 else 128

/-- Whether a list of emitted entries is in ascending numerical order. -/
def entriesAscending (w : Nat) : List NetData → Bool
  | a :: b :: rest => decide (entryKey w a ≤ entryKey w b) && entriesAscending w (b :: rest)
  | _ => true

/-- Whether an emitted address family block lists its entries in
ascending numerical order (the spec's claim). -/
def blockAscending (fam : List Nat × IPAddressChoice) : Bool :=
  match fam.2 with
  | .inherit => true
  | .addressesOrRanges es => entriesAscending (famWidth fam.1) es

/-- Semantic membership of one address in one resource item within
address family v. -/
def addrInItem (v : Nat) (a : Nat) : IPAddressFamilyInfo → Bool
  | .net n =>
    n.version == v &&
      decide (n.address ≤ a ∧ a < n.address + 2 ^ (max_prefixlen v - n.prefixLen))
  | .range rv low high => rv == v && decide (low ≤ a ∧ a ≤ high)
  | .inherit afi => afi == v

/-- Semantic membership of one address in a resource list. -/
def addrInResources (v : Nat) (a : Nat) (res : List IPAddressFamilyInfo) : Bool :=
  res.any (addrInItem v a)

/-! ## cert/ca.py, cert/base.py -/

/-- The asIdsOrRanges entries of RFC3779 ASIdentifiers. -/
inductive ASIdOrRangeInfo where
  | asId (value : Int)
  | asRange (lo hi : Int)
deriving DecidableEq, Repr

/-- A certificate issued by the model CA: python object identity is
modelled by the id field; serial is the serialNumber placed in the
certificate; the resource extensions carry exactly the declared
resources (none when the extension is absent); mftEntry is the
(file name, DER bytes) pair the subject contributes to its issuer's
manifest (none when unavailable). -/
structure ModelCert where
  id : Nat
  serial : Nat
  commonName : String
  ipResources : Option (List IPAddressFamilyInfo)
  asResources : Option (List ASIdOrRangeInfo)
  mftEntry : Option (String × List Nat)
deriving DecidableEq, Repr

/-- The data of a subject certificate under construction
(BaseResourceCertificate.__init__ arguments plus its manifest entry). -/
structure CertRequest where
  id : Nat
  commonName : String
  ipResources : Option (List IPAddressFamilyInfo)
  asResources : Option (List ASIdOrRangeInfo)
  mftEntry : Option (String × List Nat)
deriving DecidableEq, Repr

/-- The mutable state of a CertificateAuthority: its identity, its own
resource sets, the serial counter, the list of issued subjects, the
CRL state and the manifest state. -/
structure CAState where
  selfId : Nat
  commonName : String
  ipResources : List IPAddressFamilyInfo
  asResources : List ASIdOrRangeInfo
  nextSerial : Nat
  issued : List ModelCert
  nextCrlNumber : Nat
  crlDer : List Nat
  mftDays : Nat
  nextMftNumber : Nat
deriving DecidableEq, Repr

/-- One certificate construction step: BaseResourceCertificate.__init__
reads the issuer's next_serial_number into the builder, then
CertificateAuthority.issue_cert signs the builder, appends the subject
to _issued and increments next_serial_number.  No check of any kind is
performed on the subject's resources. -/
def issue_cert (ca : CAState) (req : CertRequest) : ModelCert × CAState :=
  let cert : ModelCert :=
    { id := req.id
      serial := ca.nextSerial
      commonName := req.commonName
      ipResources := req.ipResources
      asResources := req.asResources
      mftEntry := req.mftEntry }
  (cert, { ca with issued := ca.issued ++ [cert], nextSerial := ca.nextSerial + 1 })

/-- CertificateAuthority.__init__: next_serial_number starts at 1, the
CA then issues its own certificate to itself (serial 1), and
issue_crl runs once taking next_crl_number from 0 to 1.  The signed
CRL bytes come from the crypto library and are passed in. -/
def CertificateAuthority_init (selfId : Nat) (cn : String)
    (ip : List IPAddressFamilyInfo) (asr : List ASIdOrRangeInfo)
    (selfDer crlBytes : List Nat) (mftDays : Nat) : CAState :=
  let ca0 : CAState :=
    { selfId := selfId
      commonName := cn
      ipResources := ip
      asResources := asr
      nextSerial := 1
      issued := []
      nextCrlNumber := 0
      crlDer := []
      mftDays := mftDays
      nextMftNumber := 0 }
  let selfReq : CertRequest :=
    { id := selfId
      commonName := cn
      ipResources := some ip
      asResources := some asr
      mftEntry := some (cn ++ ".cer", selfDer) }
  let ca1 := (issue_cert ca0 selfReq).2
  { ca1 with crlDer := crlBytes, nextCrlNumber := 1 }

/-- A sequence of certificate constructions against one CA. -/
def issueAll (ca : CAState) (reqs : List CertRequest) : CAState :=
  reqs.foldl (fun s r => (issue_cert s r).2) ca

/-- An example CA holding exactly 10.0.0.0/8 and AS 65000. -/
def caEx : CAState :=
  CertificateAuthority_init 0 "TA" [.net ⟨4, 167772160, 8⟩] [.asId 65000] [1] [2] 7

/-- An example subject declaring 11.0.0.0/8, which the example CA does
not hold. -/
def reqEx : CertRequest :=
  { id := 1
    commonName := "CA"
    ipResources := some [.net ⟨4, 184549376, 8⟩]
    asResources := none
    mftEntry := some ("CA.cer", [3]) }

/-! ## sigobj/mft.py and CertificateAuthority.publish -/

/-- Big-endian integer value of a byte string
(python int.from_bytes(data, orderBig)). -/
def natFromBytes (bs : List Nat) : Nat :=
  bs.foldl (fun acc b => acc * 256 + b) 0

/-- RpkiManifestContentType.hash_bitstring: the BIT STRING over a
file's contents is (integer value of the digest, bit length of the
digest).  The digest function itself is external crypto. -/
def hash_bitstring (digest : List Nat → List Nat) (contents : List Nat) : Nat × Nat :=
  let d := digest contents
  (natFromBytes d, 8 * d.length)

/-- The manifest eContent fields built by RpkiManifestContentType,
with timestamps in seconds. -/
structure ManifestContent where
  manifestNumber : Nat
  thisUpdate : Nat
  nextUpdate : Nat
  fileList : List (String × (Nat × Nat))
deriving DecidableEq, Repr

/-- The mft_file_list collected by CertificateAuthority.publish: the
CRL entry first, then the manifest entry of every issued subject other
than the CA itself, in issuance order, skipping subjects without an
entry. -/
def publish_collect (ca : CAState) : List (String × List Nat) :=
  ("revoked.crl", ca.crlDer) ::
    (ca.issued.filter fun c => c.id != ca.selfId).filterMap ModelCert.mftEntry

/-- CertificateAuthority.issue_mft: build the manifest eContent with
the current next_mft_number, thisUpdate now, nextUpdate now plus
mft_days days (86400 seconds each), hash every collected file, and
increment next_mft_number. -/
def issue_mft (digest : List Nat → List Nat) (ca : CAState) (now : Nat)
    (file_list : List (String × List Nat)) : ManifestContent × CAState :=
  ({ manifestNumber := ca.nextMftNumber
     thisUpdate := now
     nextUpdate := now + ca.mftDays * 86400
     fileList := file_list.map fun f => (f.1, hash_bitstring digest f.2) },
   { ca with nextMftNumber := ca.nextMftNumber + 1 })

/-- The manifest-producing part of CertificateAuthority.publish:
collect the file list and issue the manifest (file writing is I/O and
not modelled). -/
def publish (digest : List Nat → List Nat) (ca : CAState) (now : Nat) :
    ManifestContent × CAState :=
  issue_mft digest ca now (publish_collect ca)

/-! ## sigobj/base.py and cert/ee.py -/

/-- Lowercase hexadecimal digit characters, as python hex formatting
uses them. -/
def hexAlphabet : List Char :=
  "0123456789abcdef".data

/-- One lowercase hexadecimal digit. -/
def hexChar (n : Nat) : Char :=
  hexAlphabet.getD n '0'

/-- python bytes.hex() / hashlib hexdigest(): two lowercase hex digits
per byte, high nibble first. -/
def hexdigest (bytes : List Nat) : String :=
  String.mk (bytes.flatMap fun b => [hexChar (b / 16), hexChar (b % 16)])

/-- EncapsulatedContentType.signed_attrs_digest: the lowercase hex
digest of the DER encoding of the signedAttrs. -/
def signed_attrs_digest (digest : List Nat → List Nat) (signedAttrsDer : List Nat) :
    String :=
  hexdigest (digest signedAttrsDer)

/-- The data of a signed object needed by the EE certificate and file
naming logic: the optional caller-supplied file name, the DER bytes of
its signedAttributes, and the content-type file extension. -/
structure SignedObjectModel where
  fileNameArg : Option String
  signedAttrsDer : List Nat
  fileExt : String
deriving DecidableEq, Repr

/-- EECertificate.__init__: the subject common name is the
signed_attrs_digest of the object's eContent; the certificate is then
constructed and issued through the issuing CA. -/
def EECertificate_init (digest : List Nat → List Nat) (issuer : CAState)
    (obj : SignedObjectModel) (certId : Nat)
    (ip : Option (List IPAddressFamilyInfo)) (asr : Option (List ASIdOrRangeInfo))
    (mftEntry : Option (String × List Nat)) : ModelCert × CAState :=
  issue_cert issuer
    { id := certId
      commonName := signed_attrs_digest digest obj.signedAttrsDer
      ipResources := ip
      asResources := asr
      mftEntry := mftEntry }

/-- SignedObject.file_name: the caller-supplied name when present,
otherwise the signed_attrs_digest followed by a dot and the
content-type file extension. -/
def SignedObject_file_name (digest : List Nat → List Nat)
    (obj : SignedObjectModel) : String :=
  match obj.fileNameArg with
  | none => signed_attrs_digest digest obj.signedAttrsDer ++ "." ++ obj.fileExt
  | some n => n

/-! ## TACertificateAuthority.tal -/

/-- The base64 alphabet in index order. -/
def b64Alphabet : List Char :=
  "ABCDEFGHIJKLMNOPQRSTUVWXYZabcdefghijklmnopqrstuvwxyz0123456789+/".data

/-- One base64 alphabet character. -/
def b64Char (n : Nat) : Char :=
  b64Alphabet.getD n 'A'

/-- python base64.b64encode: standard base64 of a byte string, three
bytes to four characters, padded with = characters, producing no line
breaks and no trailing newline. -/
def b64encodeChars : List Nat → List Char
  | b1 :: b2 :: b3 :: rest =>
    let n := b1 * 65536 + b2 * 256 + b3
    b64Char (n / 262144 % 64) :: b64Char (n / 4096 % 64) ::
      b64Char (n / 64 % 64) :: b64Char (n % 64) :: b64encodeChars rest
  | [b1, b2] =>
    let n := b1 * 65536 + b2 * 256
    [b64Char (n / 262144 % 64), b64Char (n / 4096 % 64), b64Char (n / 64 % 64), '=']
  | [b1] =>
    let n := b1 * 65536
    [b64Char (n / 262144 % 64), b64Char (n / 4096 % 64), '=', '=']
  | [] => []

/-- TACertificateAuthority.tal: the certificate rsync URI line, one
blank line, then the base64 of the SubjectPublicKeyInfo DER exactly as
base64.b64encode returns it. -/
def tal (base_uri cn : String) (spki_der : List Nat) : String :=
  base_uri ++ "/" ++ cn ++ ".cer" ++ "\n\n" ++ String.mk (b64encodeChars spki_der)

/-- The TAL content as the spec describes it: the same first two
lines, then the base64 body followed by a single trailing newline. -/
def tal_spec_claimed (base_uri cn : String) (spki_der : List Nat) : String :=
  base_uri ++ "/" ++ cn ++ ".cer" ++ "\n\n" ++ String.mk (b64encodeChars spki_der) ++ "\n"

/-! ## sigobj/roa.py -/

/-- One (network, optional maxLength) pair given to the ROA
constructor. -/
structure RoaNetworkInfo where
  network : IPNet
  maxlen : Option Int
deriving DecidableEq, Repr

/-- One emitted ROAIPAddress: the address bit-string and the optional
maxLength, exactly as placed in the eContent dict. -/
structure ROAAddressEntry where
  address : Nat × Nat
  maxLength : Option Int
deriving DecidableEq, Repr

/-- The ROA eContent fields built by
RouteOriginAttestationContentType.__init__. -/
structure RoaContent where
  version : Int
  asID : Int
  ipAddrBlocks : List (List Nat × List ROAAddressEntry)
deriving DecidableEq, Repr

/-- RouteOriginAttestationContentType.__init__: entries are stably
sorted by AFI bytes (IPv4 before IPv6) and grouped into at most one
block per family; each entry keeps its supplied maxLength untouched;
no validation of any kind is performed. -/
def RouteOriginAttestation_init (version : Int) (as_id : Int)
    (ip_address_blocks : List RoaNetworkInfo) : RoaContent :=
  let v4 := ip_address_blocks.filter fun b => b.network.version == 4
  let v6 := ip_address_blocks.filter fun b => !(b.network.version == 4)
  let mkEntries := fun (l : List RoaNetworkInfo) =>
    l.map fun b => ROAAddressEntry.mk (net_to_bitstring b.network) b.maxlen
  { version := version
    asID := as_id
    ipAddrBlocks :=
      (if v4.isEmpty then [] else [(afiBytes 4, mkEntries v4)]) ++
      (if v6.isEmpty then [] else [(afiBytes 6, mkEntries v6)]) }

/-- The maxLength bound the spec requires for family version v. -/
def maxLengthOk (v : Nat) (prefixLen : Nat) (ml : Int) : Prop :=
  (prefixLen : Int) ≤ ml ∧ ml ≤ (max_prefixlen v : Int)

/-! ## Theorems -/

/-- The lower-bound trimming loop started on an all-zero address never
returns, whatever the fuel. -/
theorem trimLowLoop_zero (fuel : Nat) (len : Int) : trimLowLoop fuel 0 len = none := by
  induction fuel generalizing len with
  | zero => rfl
  | succ k ih => simpa [trimLowLoop] using ih (len - 1)

/-- A result of the lower-bound loop is stable under extra fuel. -/
theorem trimLowLoop_mono {fuel fuel' : Nat} {bits : Nat} {len : Int} {r : Nat × Int}
    (h : trimLowLoop fuel bits len = some r) (hle : fuel ≤ fuel') :
    trimLowLoop fuel' bits len = some r := by
  induction fuel generalizing fuel' bits len with
  | zero => simp [trimLowLoop] at h
  | succ k ih =>
    cases fuel' with
    | zero => exact absurd hle (by simp)
    | succ f' =>
      rw [trimLowLoop] at h ⊢
      by_cases hb : bits % 2 = 0
      · rw [if_pos hb] at h ⊢
        exact ih h (Nat.le_of_succ_le_succ hle)
      · rw [if_neg hb] at h ⊢
        exact h

/-- A result of the upper-bound loop is stable under extra fuel. -/
theorem trimHighLoop_mono {fuel fuel' : Nat} {bits : Nat} {len : Int} {r : Nat × Int}
    (h : trimHighLoop fuel bits len = some r) (hle : fuel ≤ fuel') :
    trimHighLoop fuel' bits len = some r := by
  induction fuel generalizing fuel' bits len with
  | zero => simp [trimHighLoop] at h
  | succ k ih =>
    cases fuel' with
    | zero => exact absurd hle (by simp)
    | succ f' =>
      rw [trimHighLoop] at h ⊢
      by_cases hb : bits % 2 = 1
      · rw [if_pos hb] at h ⊢
        exact ih h (Nat.le_of_succ_le_succ hle)
      · rw [if_neg hb] at h ⊢
        exact h

/-- With a non-zero lower bound the trimming loop terminates: some
finite fuel returns a value. -/
theorem trimLowLoop_some_of_ne_zero : ∀ bits : Nat, bits ≠ 0 → ∀ len : Int,
    ∃ fuel r, trimLowLoop fuel bits len = some r := by
  intro bits
  induction bits using Nat.strong_induction_on with
  | _ b ih =>
    intro hb len
    by_cases h2 : b % 2 = 0
    · have hlt : b / 2 < b := Nat.div_lt_self (Nat.pos_of_ne_zero hb) one_lt_two
      have hne : b / 2 ≠ 0 := by omega
      obtain ⟨f, r, hf⟩ := ih (b / 2) hlt hne (len - 1)
      exact ⟨f + 1, r, by rw [trimLowLoop, if_pos h2]; exact hf⟩
    · exact ⟨1, (b, len), by rw [trimLowLoop, if_neg h2]⟩

/-- The upper-bound trimming loop terminates on every input. -/
theorem trimHighLoop_some : ∀ (bits : Nat) (len : Int),
    ∃ fuel r, trimHighLoop fuel bits len = some r := by
  intro bits
  induction bits using Nat.strong_induction_on with
  | _ b ih =>
    intro len
    by_cases h2 : b % 2 = 1
    · have hb : b ≠ 0 := by omega
      have hlt : b / 2 < b := Nat.div_lt_self (Nat.pos_of_ne_zero hb) one_lt_two
      obtain ⟨f, r, hf⟩ := ih (b / 2) hlt (len - 1)
      exact ⟨f + 1, r, by rw [trimHighLoop, if_pos h2]; exact hf⟩
    · exact ⟨1, (b, len), by rw [trimHighLoop, if_neg h2]⟩

/-- C9: the IPAddressRange constructor terminates exactly for ranges
whose lower-bound address is non-zero; on an all-zero lower bound the
trailing-zero trimming loop runs forever, so no amount of fuel
produces a result. -/
theorem C9_range_constructor_terminates_iff (low high : Nat) (lowLen highLen : Int) :
    (∃ fuel, (IPAddressRange_init fuel low high lowLen highLen).isSome) ↔ low ≠ 0 := by
  constructor
  · rintro ⟨fuel, hsome⟩ h0
    subst h0
    rw [IPAddressRange_init, trimLowLoop_zero] at hsome
    simp at hsome
  · intro hlow
    obtain ⟨f1, r1, h1⟩ := trimLowLoop_some_of_ne_zero low hlow lowLen
    obtain ⟨f2, r2, h2⟩ := trimHighLoop_some high highLen
    refine ⟨max f1 f2, ?_⟩
    rw [IPAddressRange_init, trimLowLoop_mono h1 (le_max_left f1 f2),
      trimHighLoop_mono h2 (le_max_right f1 f2)]
    rfl

/-- C9 witness: a concrete non-zero lower bound (192.168.1.128) on
which the constructor terminates. -/
theorem C9_range_constructor_terminates_iff_witness :
    ∃ fuel, (IPAddressRange_init fuel 3232235904 3232236287 32 32).isSome :=
  (C9_range_constructor_terminates_iff 3232235904 3232236287 32 32).mpr (by decide)

/-- C1 counterexample: for the range 192.168.1.128-192.168.2.255 the
code does not produce the claimed pair of bit-strings: the claimed max
(23 bits, 0b11000000.10101000.0000001) differs from what the code
computes. -/
theorem C1_counterexample :
    IPAddressRange_init 33 0xC0A80180 0xC0A802FF 32 32 ≠
      some ((0b1100000010101000000000011, 25), (0b11000000101010000000001, 23)) := by
  decide

/-- C1 amended: for the range 192.168.1.128-192.168.2.255 the encoding
yields min = the 25-bit string 0b11000000.10101000.00000001.1 (as
claimed) and max = the 24-bit string 0b11000000.10101000.00000010 (the
eight trailing one bits stripped; the next bit is 0 and is kept). -/
theorem C1_range_encoding (fuel : Nat) (h : 9 ≤ fuel) :
    IPAddressRange_init fuel 0xC0A80180 0xC0A802FF 32 32 =
      some ((0b1100000010101000000000011, 25), (0b110000001010100000000010, 24)) := by
  have h1 : trimLowLoop 9 0xC0A80180 32 = some (0b1100000010101000000000011, 25) := by
    decide
  have h2 : trimHighLoop 9 0xC0A802FF 32 = some (0b110000001010100000000010, 24) := by
    decide
  rw [IPAddressRange_init, trimLowLoop_mono h1 h, trimHighLoop_mono h2 h]

/-- C1 witness: the amended encoding evaluated at fuel 9. -/
theorem C1_range_encoding_witness :
    9 ≤ 9 ∧
    IPAddressRange_init 9 0xC0A80180 0xC0A802FF 32 32 =
      some ((0b1100000010101000000000011, 25), (0b110000001010100000000010, 24)) :=
  ⟨by decide, C1_range_encoding 9 (by decide)⟩

/-- C10: converting a well-formed network to its RFC 3779 bit-string
and back yields the identical network. -/
theorem C10_bitstring_roundtrip (n : IPNet) (h : n.valid) :
    bitstring_to_net (net_to_bitstring n) n.version = some n := by
  obtain ⟨hv, hlen, hlt, hmod⟩ := h
  have hmul : n.address / 2 ^ (max_prefixlen n.version - n.prefixLen) *
      2 ^ (max_prefixlen n.version - n.prefixLen) = n.address :=
    Nat.div_mul_cancel (Nat.dvd_of_mod_eq_zero hmod)
  simp only [bitstring_to_net, net_to_bitstring]
  rw [hmul, if_pos ⟨hv, hlen, hlt⟩]

/-- C10 witness: the round trip evaluated on 10.0.0.0/8. -/
theorem C10_bitstring_roundtrip_witness :
    IPNet.valid ⟨4, 167772160, 8⟩ ∧
    bitstring_to_net (net_to_bitstring ⟨4, 167772160, 8⟩) 4 = some ⟨4, 167772160, 8⟩ :=
  ⟨by unfold IPNet.valid max_prefixlen; decide,
   C10_bitstring_roundtrip ⟨4, 167772160, 8⟩ (by unfold IPNet.valid max_prefixlen; decide)⟩

/-- A successful _net_entry conversion tags its result with the
item's own address family. -/
theorem net_entry_version {fuel : Nat} {x : IPAddressFamilyInfo} {p : Nat × NetData}
    (h : net_entry fuel x = some p) : p.1 = version_of x := by
  cases x with
  | net n =>
    rw [net_entry] at h
    cases h
    rfl
  | range v low high =>
    rw [net_entry] at h
    split at h
    next lo hi heq =>
      cases h
      rfl
    next heq =>
      cases h
  | inherit afi =>
    rw [net_entry] at h
    cases h
    rfl

/-- Converting the caller-order items of one family equals filtering
the converted items of the whole list: conversion and family grouping
commute, and no reordering happens anywhere. -/
theorem mapEntries_filter_comm (fuel v : Nat) :
    ∀ (xs : List IPAddressFamilyInfo) (entries : List (Nat × NetData)),
    mapEntries fuel xs = some entries →
    (mapEntries fuel (xs.filter fun x => version_of x == v)).map (fun l => l.map Prod.snd) =
      some ((entries.filter fun e => e.1 == v).map Prod.snd) := by
  intro xs
  induction xs with
  | nil =>
    intro entries h
    cases h
    rfl
  | cons x xs ih =>
    intro entries h
    rw [mapEntries] at h
    cases hx : net_entry fuel x with
    | none => rw [hx] at h; cases h
    | some e =>
      rw [hx] at h
      cases hrest : mapEntries fuel xs with
      | none => rw [hrest] at h; cases h
      | some es =>
        rw [hrest] at h
        cases h
        have hev : e.1 = version_of x := net_entry_version hx
        have ihes := ih es hrest
        rw [List.filter_cons, List.filter_cons]
        by_cases hv : version_of x == v
        · rw [if_pos hv]
          have hev' : (e.1 == v) = true := by
            rw [hev]; exact hv
          rw [if_pos hev']
          rw [mapEntries, hx]
          cases hm4 : mapEntries fuel (xs.filter fun x => version_of x == v) with
          | none => rw [hm4] at ihes; cases ihes
          | some l =>
            rw [hm4] at ihes
            simp only [Option.map_some', Option.some.injEq] at ihes ⊢
            rw [List.map_cons, ihes]
            rfl
        · rw [if_neg hv]
          have hev' : ¬ (e.1 == v) = true := by
            rw [hev]; exact hv
          rw [if_neg hev']
          exact ihes

/-- C2 counterexample: two IPv4 prefixes supplied in descending order
(10.0.0.0/8 then 9.0.0.0/8) are emitted in exactly that order, so the
emitted family block is not in ascending numerical order. -/
theorem C2_counterexample :
    IPAddrBlocks_init 1 [.net ⟨4, 167772160, 8⟩, .net ⟨4, 150994944, 8⟩] =
      some [([0, 1], .addressesOrRanges [.prefixEntry (10, 8), .prefixEntry (9, 8)])] ∧
    blockAscending ([0, 1],
      .addressesOrRanges [.prefixEntry (10, 8), .prefixEntry (9, 8)]) = false := by
  constructor
  · decide
  · decide

/-- C2 amended: within each address family that has entries,
IPAddrBlocks emits the entries in the caller-supplied order (the
family's input items, filtered in order and converted); no sorting
into ascending numerical order takes place. -/
theorem C2_entries_in_caller_order (fuel : Nat) (xs : List IPAddressFamilyInfo)
    (out : List (List Nat × IPAddressChoice))
    (h : IPAddrBlocks_init fuel xs = some out) :
    out = [4, 6].filterMap fun v => familyBlockSpec fuel v xs := by
  rw [IPAddrBlocks_init] at h
  cases hm : mapEntries fuel xs with
  | none => rw [hm] at h; cases h
  | some entries =>
    rw [hm] at h
    cases h
    have h4 := mapEntries_filter_comm fuel 4 xs entries hm
    have h6 := mapEntries_filter_comm fuel 6 xs entries hm
    obtain ⟨l4, hl4, hl4m⟩ : ∃ l, mapEntries fuel (xs.filter fun x => version_of x == 4) =
        some l ∧ l.map Prod.snd = (entries.filter fun e => e.1 == 4).map Prod.snd := by
      cases hm4 : mapEntries fuel (xs.filter fun x => version_of x == 4) with
      | none => rw [hm4] at h4; cases h4
      | some l =>
        rw [hm4] at h4
        simp only [Option.map_some', Option.some.injEq] at h4
        exact ⟨l, rfl, h4⟩
    obtain ⟨l6, hl6, hl6m⟩ : ∃ l, mapEntries fuel (xs.filter fun x => version_of x == 6) =
        some l ∧ l.map Prod.snd = (entries.filter fun e => e.1 == 6).map Prod.snd := by
      cases hm6 : mapEntries fuel (xs.filter fun x => version_of x == 6) with
      | none => rw [hm6] at h6; cases h6
      | some l =>
        rw [hm6] at h6
        simp only [Option.map_some', Option.some.injEq] at h6
        exact ⟨l, rfl, h6⟩
    simp only [List.map_cons, List.map_nil]
    rw [← hl4m, ← hl6m]
    rcases l4 with _ | ⟨a4, t4⟩ <;> rcases l6 with _ | ⟨a6, t6⟩ <;>
      simp [familyBlockSpec, hl4, hl6]

/-- C2 witness: the caller-order description evaluated on the
concrete two-prefix input. -/
theorem C2_entries_in_caller_order_witness :
    IPAddrBlocks_init 1 [.net ⟨4, 167772160, 8⟩, .net ⟨4, 150994944, 8⟩] =
      some [([0, 1], .addressesOrRanges [.prefixEntry (10, 8), .prefixEntry (9, 8)])] ∧
    [([0, 1], IPAddressChoice.addressesOrRanges [.prefixEntry (10, 8), .prefixEntry (9, 8)])] =
      ([4, 6].filterMap fun v =>
        familyBlockSpec 1 v [.net ⟨4, 167772160, 8⟩, .net ⟨4, 150994944, 8⟩]) :=
  ⟨by decide,
   C2_entries_in_caller_order 1 [.net ⟨4, 167772160, 8⟩, .net ⟨4, 150994944, 8⟩]
     [([0, 1], .addressesOrRanges [.prefixEntry (10, 8), .prefixEntry (9, 8)])] (by decide)⟩

/-- C3 counterexample: the example CA holds only 10.0.0.0/8, the
subject declares 11.0.0.0/8; issuance nevertheless succeeds, the
issued certificate is recorded, and it covers the address 11.0.0.0
which the issuer's resources do not cover: the subset property fails
and no ContentOutOfResources error exists anywhere in the code. -/
theorem C3_counterexample :
    (issue_cert caEx reqEx).1 ∈ (issue_cert caEx reqEx).2.issued ∧
    addrInResources 4 184549376 ((issue_cert caEx reqEx).1.ipResources.getD []) = true ∧
    addrInResources 4 184549376 caEx.ipResources = false := by
  refine ⟨?_, by decide, by decide⟩
  decide

/-- C3 amended: issue_cert performs no resource containment check:
even when the subject's declared resources cover an address the
issuer's do not, issuance succeeds, the certificate carries exactly
the declared resources, and it is appended to the issuer's issued
list. -/
theorem C3_issue_cert_no_subset_check (ca : CAState) (req : CertRequest)
    (h : ∃ v a, addrInResources v a (req.ipResources.getD []) = true ∧
      addrInResources v a ca.ipResources = false) :
    (issue_cert ca req).1.ipResources = req.ipResources ∧
    (issue_cert ca req).1.asResources = req.asResources ∧
    (issue_cert ca req).2.issued = ca.issued ++ [(issue_cert ca req).1] ∧
    (issue_cert ca req).2.nextSerial = ca.nextSerial + 1 :=
  ⟨rfl, rfl, rfl, rfl⟩

/-- C3 witness: the no-check behaviour at the concrete
out-of-resources issuance. -/
theorem C3_issue_cert_no_subset_check_witness :
    (∃ v a, addrInResources v a (reqEx.ipResources.getD []) = true ∧
      addrInResources v a caEx.ipResources = false) ∧
    ((issue_cert caEx reqEx).1.ipResources = reqEx.ipResources ∧
     (issue_cert caEx reqEx).1.asResources = reqEx.asResources ∧
     (issue_cert caEx reqEx).2.issued = caEx.issued ++ [(issue_cert caEx reqEx).1] ∧
     (issue_cert caEx reqEx).2.nextSerial = caEx.nextSerial + 1) :=
  ⟨⟨4, 184549376, by decide, by decide⟩,
   C3_issue_cert_no_subset_check caEx reqEx ⟨4, 184549376, by decide, by decide⟩⟩

/-- Issuing a list of requests appends one certificate per request,
with consecutive serial numbers starting at the CA's serial counter,
and advances the counter by the number of requests. -/
theorem issueAll_serials (reqs : List CertRequest) :
    ∀ ca : CAState,
    (issueAll ca reqs).issued.map ModelCert.serial =
      ca.issued.map ModelCert.serial ++ List.range' ca.nextSerial reqs.length ∧
    (issueAll ca reqs).nextSerial = ca.nextSerial + reqs.length := by
  induction reqs with
  | nil => intro ca; simp [issueAll]
  | cons r rs ih =>
    intro ca
    have step : issueAll ca (r :: rs) = issueAll ((issue_cert ca r).2) rs := rfl
    obtain ⟨h1, h2⟩ := ih ((issue_cert ca r).2)
    rw [step]
    constructor
    · rw [h1]
      show (ca.issued ++ [_]).map ModelCert.serial ++
        List.range' (ca.nextSerial + 1) rs.length = _
      rw [List.map_append, List.length_cons, List.range'_succ, List.append_assoc]
      rfl
    · rw [h2]
      show ca.nextSerial + 1 + rs.length = ca.nextSerial + (rs.length + 1)
      omega

/-- C4: after any sequence of issuances, the serial numbers of the
certificates issued by a CA (the self-issued certificate and one per
subsequent construction) are exactly 1, 2, ..., n: contiguous from 1,
pairwise distinct, and next_serial_number is n + 1. -/
theorem C4_serial_numbers (selfId : Nat) (cn : String)
    (ip : List IPAddressFamilyInfo) (asr : List ASIdOrRangeInfo)
    (selfDer crlBytes : List Nat) (mftDays : Nat) (reqs : List CertRequest) :
    (issueAll (CertificateAuthority_init selfId cn ip asr selfDer crlBytes mftDays)
        reqs).issued.map ModelCert.serial = List.range' 1 (reqs.length + 1) ∧
    ((issueAll (CertificateAuthority_init selfId cn ip asr selfDer crlBytes mftDays)
        reqs).issued.map ModelCert.serial).Nodup ∧
    (issueAll (CertificateAuthority_init selfId cn ip asr selfDer crlBytes mftDays)
        reqs).nextSerial = reqs.length + 2 := by
  obtain ⟨h1, h2⟩ :=
    issueAll_serials reqs (CertificateAuthority_init selfId cn ip asr selfDer crlBytes mftDays)
  have hinit : (CertificateAuthority_init selfId cn ip asr selfDer crlBytes
      mftDays).issued.map ModelCert.serial = List.range' 1 1 := rfl
  have hnext : (CertificateAuthority_init selfId cn ip asr selfDer crlBytes
      mftDays).nextSerial = 2 := rfl
  rw [hinit, hnext] at h1
  rw [hnext] at h2
  have hall : (issueAll (CertificateAuthority_init selfId cn ip asr selfDer crlBytes mftDays)
      reqs).issued.map ModelCert.serial = List.range' 1 (reqs.length + 1) := by
    rw [h1]
    have := List.range'_append 1 1 reqs.length 1
    simpa using this
  refine ⟨hall, ?_, by omega⟩
  rw [hall]
  exact List.nodup_range' 1 (reqs.length + 1)

/-- When every certificate in a list has a manifest entry, collecting
the entries drops nothing. -/
theorem filterMap_mftEntry_length (l : List ModelCert)
    (h : ∀ c ∈ l, c.mftEntry.isSome) :
    (l.filterMap ModelCert.mftEntry).length = l.length := by
  induction l with
  | nil => rfl
  | cons c cs ih =>
    rw [List.filterMap_cons]
    cases hc : c.mftEntry with
    | none =>
      have hs := h c (by simp)
      rw [hc] at hs
      cases hs
    | some e =>
      have hih := ih fun d hd => h d (by simp [hd])
      simp [hc, hih]

/-- C5: publish collects exactly one manifest entry for the CRL plus
one per issued certificate other than the CA itself; the issued
manifest carries the pre-call next_mft_number, thisUpdate now,
nextUpdate now plus mft_days days, and for every entry a 256-bit hash
bit-string of the digest of that entry's DER bytes; the manifest
counter then advances by one. -/
theorem C5_publish_manifest (digest : List Nat → List Nat) (ca : CAState) (now : Nat)
    (h32 : ∀ x, (digest x).length = 32)
    (hmft : ∀ c ∈ ca.issued, c.mftEntry.isSome) :
    (publish digest ca now).1.manifestNumber = ca.nextMftNumber ∧
    (publish digest ca now).2.nextMftNumber = ca.nextMftNumber + 1 ∧
    (publish digest ca now).1.thisUpdate = now ∧
    (publish digest ca now).1.nextUpdate = now + ca.mftDays * 86400 ∧
    (publish digest ca now).1.fileList.length =
      1 + (ca.issued.filter fun c => c.id != ca.selfId).length ∧
    (publish digest ca now).1.fileList =
      ("revoked.crl", (natFromBytes (digest ca.crlDer), 256)) ::
        ((ca.issued.filter fun c => c.id != ca.selfId).filterMap ModelCert.mftEntry).map
          (fun f => (f.1, (natFromBytes (digest f.2), 256))) := by
  have hfun : (fun f : String × List Nat => (f.1, hash_bitstring digest f.2)) =
      fun f => (f.1, (natFromBytes (digest f.2), 256)) := by
    funext f
    simp [hash_bitstring, h32 f.2]
  have hlist : (publish digest ca now).1.fileList =
      ("revoked.crl", (natFromBytes (digest ca.crlDer), 256)) ::
        ((ca.issued.filter fun c => c.id != ca.selfId).filterMap ModelCert.mftEntry).map
          (fun f => (f.1, (natFromBytes (digest f.2), 256))) := by
    show (publish_collect ca).map (fun f => (f.1, hash_bitstring digest f.2)) = _
    rw [hfun, publish_collect, List.map_cons]
  refine ⟨rfl, rfl, rfl, rfl, ?_, hlist⟩
  rw [hlist]
  rw [List.length_cons, List.length_map,
    filterMap_mftEntry_length _ fun c hc => hmft c (List.mem_of_mem_filter hc)]
  omega

/-- C5 witness: a CA with one child certificate, evaluated with a
constant 32-byte digest function. -/
theorem C5_publish_manifest_witness :
    (∀ x, ((fun _ : List Nat => List.replicate 32 0) x).length = 32) ∧
    (∀ c ∈ (issueAll caEx [reqEx]).issued, c.mftEntry.isSome) ∧
    (publish (fun _ => List.replicate 32 0) (issueAll caEx [reqEx]) 1000).1.fileList =
      ("revoked.crl", (natFromBytes (List.replicate 32 0), 256)) ::
        (((issueAll caEx [reqEx]).issued.filter
            fun c => c.id != (issueAll caEx [reqEx]).selfId).filterMap
              ModelCert.mftEntry).map
          (fun f => (f.1, (natFromBytes (List.replicate 32 0), 256))) :=
  ⟨fun _ => by simp,
   by decide,
   (C5_publish_manifest (fun _ => List.replicate 32 0) (issueAll caEx [reqEx]) 1000
     (fun _ => by simp) (by decide)).2.2.2.2.2⟩

/-- Every hexChar output is a lowercase hexadecimal digit. -/
theorem hexChar_mem (n : Nat) : hexChar n ∈ hexAlphabet := by
  rw [hexChar]
  by_cases h : n < hexAlphabet.length
  · rw [List.getD_eq_getElem hexAlphabet '0' h]
    exact List.getElem_mem h
  · rw [List.getD_eq_default hexAlphabet '0' (Nat.le_of_not_lt h)]
    decide

/-- Every character of a hexdigest is a lowercase hexadecimal digit. -/
theorem hexdigest_chars (bs : List Nat) :
    ∀ c ∈ (hexdigest bs).data, c ∈ hexAlphabet := by
  intro c hc
  have hc' : c ∈ bs.flatMap fun b => [hexChar (b / 16), hexChar (b % 16)] := hc
  obtain ⟨b, _, hcb⟩ := List.mem_flatMap.mp hc'
  simp only [List.mem_cons, List.not_mem_nil, or_false] at hcb
  rcases hcb with h | h
  · rw [h]; exact hexChar_mem _
  · rw [h]; exact hexChar_mem _

/-- A hexdigest spells two characters per input byte. -/
theorem hexdigest_length (bs : List Nat) :
    (hexdigest bs).length = 2 * bs.length := by
  show (bs.flatMap fun b => [hexChar (b / 16), hexChar (b % 16)]).length = 2 * bs.length
  induction bs with
  | nil => rfl
  | cons b t ih =>
    rw [List.flatMap_cons, List.length_append, ih]
    simp only [List.length_cons, List.length_nil]
    omega

/-- C6: the subject common name of the EE certificate issued for a
signed object is the lowercase hexadecimal digest of the DER encoding
of the object's signedAttributes: every character is a lowercase hex
digit, the length is two characters per digest byte, and when no file
name is supplied the object's file name is that digest followed by a
dot and the content-type extension. -/
theorem C6_ee_common_name (digest : List Nat → List Nat) (issuer : CAState)
    (obj : SignedObjectModel) (certId : Nat)
    (ip : Option (List IPAddressFamilyInfo)) (asr : Option (List ASIdOrRangeInfo))
    (mftE : Option (String × List Nat)) :
    (EECertificate_init digest issuer obj certId ip asr mftE).1.commonName =
      hexdigest (digest obj.signedAttrsDer) ∧
    (∀ c ∈ (hexdigest (digest obj.signedAttrsDer)).data, c ∈ hexAlphabet) ∧
    (hexdigest (digest obj.signedAttrsDer)).length = 2 * (digest obj.signedAttrsDer).length ∧
    SignedObject_file_name digest ⟨none, obj.signedAttrsDer, obj.fileExt⟩ =
      hexdigest (digest obj.signedAttrsDer) ++ "." ++ obj.fileExt :=
  ⟨rfl, hexdigest_chars _, hexdigest_length _, rfl⟩

/-- Every b64Char output is a base64 alphabet character. -/
theorem b64Char_mem (n : Nat) : b64Char n ∈ b64Alphabet := by
  rw [b64Char]
  by_cases h : n < b64Alphabet.length
  · rw [List.getD_eq_getElem b64Alphabet 'A' h]
    exact List.getElem_mem h
  · rw [List.getD_eq_default b64Alphabet 'A' (Nat.le_of_not_lt h)]
    decide

/-- Every character base64.b64encode emits is an alphabet character
or the padding character. -/
theorem b64encodeChars_mem (bs : List Nat) :
    ∀ c ∈ b64encodeChars bs, c ∈ b64Alphabet ∨ c = '=' := by
  induction bs using b64encodeChars.induct with
  | case1 b1 b2 b3 rest ih =>
    intro c hc
    rw [b64encodeChars] at hc
    simp only [List.mem_cons] at hc
    rcases hc with h | h | h | h | h
    · rw [h]; exact Or.inl (b64Char_mem _)
    · rw [h]; exact Or.inl (b64Char_mem _)
    · rw [h]; exact Or.inl (b64Char_mem _)
    · rw [h]; exact Or.inl (b64Char_mem _)
    · exact ih c h
  | case2 b1 b2 =>
    intro c hc
    rw [b64encodeChars] at hc
    simp only [List.mem_cons, List.not_mem_nil, or_false] at hc
    rcases hc with h | h | h | h
    · rw [h]; exact Or.inl (b64Char_mem _)
    · rw [h]; exact Or.inl (b64Char_mem _)
    · rw [h]; exact Or.inl (b64Char_mem _)
    · rw [h]; exact Or.inr rfl
  | case3 b1 =>
    intro c hc
    rw [b64encodeChars] at hc
    simp only [List.mem_cons, List.not_mem_nil, or_false] at hc
    rcases hc with h | h | h | h
    · rw [h]; exact Or.inl (b64Char_mem _)
    · rw [h]; exact Or.inl (b64Char_mem _)
    · rw [h]; exact Or.inr rfl
    · rw [h]; exact Or.inr rfl
  | case4 =>
    intro c hc
    cases hc

/-- C7 counterexample: on a concrete one-byte key the generated TAL
is the URI line, a blank line and the base64 body with no trailing
newline, which differs from the spec's description ending in a
newline. -/
theorem C7_counterexample :
    tal "rsync://rpki.example.net/rpki" "TA" [0] =
      "rsync://rpki.example.net/rpki/TA.cer\n\nAA==" ∧
    tal "rsync://rpki.example.net/rpki" "TA" [0] ≠
      tal_spec_claimed "rsync://rpki.example.net/rpki" "TA" [0] := by
  constructor
  · rfl
  · decide

/-- C7 amended: the TAL content is exactly the certificate URI line,
one blank line, and the base64 of the SubjectPublicKeyInfo DER on a
single unwrapped line with no trailing newline: no character of the
base64 body is a newline, so the body neither wraps nor ends in one. -/
theorem C7_tal_content (base_uri cn : String) (spki_der : List Nat) :
    tal base_uri cn spki_der =
      base_uri ++ "/" ++ cn ++ ".cer" ++ "\n\n" ++ String.mk (b64encodeChars spki_der) ∧
    ∀ c ∈ b64encodeChars spki_der, ¬ c = '\n' := by
  refine ⟨rfl, fun c hc => ?_⟩
  rcases b64encodeChars_mem spki_der c hc with h | h
  · intro hn
    rw [hn] at h
    exact absurd h (by decide)
  · intro hn
    rw [hn] at h
    exact absurd h (by decide)

/-- C8 counterexample: a supplied maxLength of 40 on the IPv4 prefix
10.0.0.0/8 violates the spec's bound (8 <= 40 <= 32 fails), yet
construction succeeds and the emitted ROAIPAddress carries
maxLength 40 unchanged: no InvalidMaxLength validation exists. -/
theorem C8_counterexample :
    ¬ maxLengthOk 4 8 40 ∧
    (RouteOriginAttestation_init 0 65000 [⟨⟨4, 167772160, 8⟩, some 40⟩]).ipAddrBlocks =
      [([0, 1], [⟨(10, 8), some 40⟩])] := by
  constructor
  · unfold maxLengthOk max_prefixlen
    decide
  · decide

/-- C8 amended: the ROA constructor validates nothing: for every
input it succeeds, and the emitted entries are exactly the supplied
(network, maxLength) pairs, grouped IPv4 first, each with its
bit-string address and its maxLength passed through unchanged. -/
theorem C8_maxlength_not_validated (version as_id : Int)
    (blocks : List RoaNetworkInfo) :
    ((RouteOriginAttestation_init version as_id blocks).ipAddrBlocks.map Prod.snd).flatten =
      (blocks.filter (fun b => b.network.version == 4) ++
        blocks.filter fun b => !(b.network.version == 4)).map
        (fun b => ⟨net_to_bitstring b.network, b.maxlen⟩) := by
  simp only [RouteOriginAttestation_init]
  by_cases h4 : (blocks.filter fun b => b.network.version == 4).isEmpty <;>
    by_cases h6 : (blocks.filter fun b => !(b.network.version == 4)).isEmpty
  · rw [if_pos h4, if_pos h6]
    simp [List.isEmpty_iff.mp h4, List.isEmpty_iff.mp h6]
  · rw [if_pos h4, if_neg h6]
    simp [List.isEmpty_iff.mp h4]
  · rw [if_neg h4, if_pos h6]
    simp [List.isEmpty_iff.mp h6]
  · rw [if_neg h4, if_neg h6]
    simp [List.map_append]

end Rpkimancer
